import Mathlib

/-!
Verification of the ctrl-connect action-dispatch core.

This file gives a shallow embedding of the dispatch pipeline of the
ctrl-connect repository: the JS value model, the `CtrlError` envelope
(src/unnamed/part_003), the validation engine (`Validator`, part_003),
the `ResponseHandler` (src/util/response.ts), the dependency injector
(src/unnamed/part_001), `RequestContext` (src/unnamed/part_000), and the
dispatcher `BaseController.callAction` / `resolveActionFn`
(src/BaseController.ts, with the express variant of part_001).

Machine-level JS details that matter to the claims (falsiness, `||`
defaults, prototype-chain lookup, the promise chain of `callAction`,
the write bookkeeping of `ResponseHandler`) are modelled explicitly;
asynchrony is flattened to the deterministic event order the promise
chain produces for a single dispatch cycle.
-/

set_option autoImplicit false

mutual
/-- A JavaScript runtime value, restricted to the data the dispatch core
moves around: JSON-like data, `undefined`/`null`, byte buffers
(`Buffer`/`Uint8Array`/`ArrayBuffer`), and opaque function references
(which, like JS functions, have no JSON encoding).  Arrays and objects
use the mutually inductive list types below so that all functions over
values can be defined by structural recursion. -/
inductive Value where
  | undef
  | null
  | bool (b : Bool)
  | num (n : Int)
  | str (s : String)
  | arr (elems : ValueList)
  | obj (fields : FieldList)
  | bytes (bs : List Nat)
  | fnRef (name : String)

/-- A list of JS values (array elements). -/
inductive ValueList where
  | nil
  | cons (v : Value) (rest : ValueList)

/-- A list of key/value fields of a JS object. -/
inductive FieldList where
  | fnil
  | fcons (k : String) (v : Value) (rest : FieldList)
end

/-- Build a `ValueList` from a Lean list. -/
def ValueList.ofList : List Value → ValueList
  | [] => .nil
  | v :: rest => .cons v (ValueList.ofList rest)

/-- Build a `FieldList` from a Lean list of pairs. -/
def FieldList.ofList : List (String × Value) → FieldList
  | [] => .fnil
  | (k, v) :: rest => .fcons k v (FieldList.ofList rest)

/-- Shorthand for a JS object value given its fields. -/
def vobj (l : List (String × Value)) : Value :=
  .obj (FieldList.ofList l)

/-- Shorthand for a JS array value given its elements. -/
def varr (l : List Value) : Value :=
  .arr (ValueList.ofList l)

/-- JS falsiness: `undefined`, `null`, `false`, `0` and `""` are falsy;
objects, arrays and buffers are always truthy. -/
def Value.isFalsy : Value → Bool
  | .undef => true
  | .null => true
  | .bool b => !b
  | .num n => n == 0
  | .str s => s == ""
  | _ => false

/-- The JS `a || b` operator on values. -/
def jsOr (a b : Value) : Value :=
  if a.isFalsy then b else a

/-- JSON string escaping for the characters the corpus can produce
(quote, backslash and the common control characters). -/
def escapeJsonChar (c : Char) : String :=
  if c = '"' then "\\\""
  else if c = '\\' then "\\\\"
  else if c = '\n' then "\\n"
  else if c = '\r' then "\\r"
  else if c = '\t' then "\\t"
  else String.singleton c

def escapeJsonString (s : String) : String :=
  String.join (s.data.map escapeJsonChar)

mutual
/-- Model of `JSON.stringify`, as used by `ResponseHandler.write`
(src/util/response.ts).  `undefined` and function values have no JSON
encoding (`JSON.stringify` returns `undefined` for them): result `none`.
Inside arrays such elements render as `null`; inside objects the key is
skipped.  Byte buffers reach this function only when nested inside other
data (the write path serializes top-level buffers as raw bytes); they
render index-keyed like a `Uint8Array`. -/
def stringify : Value → Option String
  | .undef => none
  | .fnRef _ => none
  | .null => some "null"
  | .bool true => some "true"
  | .bool false => some "false"
  | .num n => some (toString n)
  | .str s => some ("\"" ++ escapeJsonString s ++ "\"")
  | .bytes bs =>
      some ("\x7b" ++ String.intercalate ","
        (((List.range bs.length).zip bs).map
          (fun p => "\"" ++ toString p.1 ++ "\":" ++ toString p.2)) ++ "\x7d")
  | .arr elems => some ("[" ++ String.intercalate "," (stringifyElems elems) ++ "]")
  | .obj fields => some ("\x7b" ++ String.intercalate "," (stringifyFields fields) ++ "\x7d")

/-- Array elements: elements without a JSON encoding render as `null`. -/
def stringifyElems : ValueList → List String
  | .nil => []
  | .cons v rest => ((stringify v).getD "null") :: stringifyElems rest

/-- Object fields: fields without a JSON encoding are skipped. -/
def stringifyFields : FieldList → List String
  | .fnil => []
  | .fcons k v rest =>
      match stringify v with
      | none => stringifyFields rest
      | some t => ("\"" ++ escapeJsonString k ++ "\":" ++ t) :: stringifyFields rest
end


/-- A plain (non-`CtrlError`) JS error, carrying only its message, as the
write path wraps them (`innerErr(err)` in src/util/response.ts). -/
structure NativeErr where
  message : String
deriving DecidableEq

/-- The structured error envelope `CtrlError` (src/unnamed/part_003):
message, machine code, HTTP status, diagnostic blob and an optional
wrapped cause.  The chainable setters `code`/`status`/`blob` of the
source are record updates here; fields unset by the source stay `none`
(matching an undefined JS property). -/
structure CtrlErr where
  message : String
  code : Option String := none
  status : Option Nat := none
  blob : Option Value := none
  inner : Option NativeErr := none

/-- Model of `CtrlError.server(message?)` (part_003): status 500, code
`server_error`; default message `Internal Server Error`. -/
def CtrlError.server (message : Option String := none) : CtrlErr :=
  { message := message.getD "Internal Server Error"
    status := some 500
    code := some "server_error" }

/-- Model of `.code(c)` chainable setter of part_003. -/
def CtrlErr.setCode (e : CtrlErr) (c : String) : CtrlErr := { e with code := some c }

/-- Model of `.status(s)` chainable setter of part_003. -/
def CtrlErr.setStatus (e : CtrlErr) (s : Nat) : CtrlErr := { e with status := some s }

/-- Model of `.blob(b)` chainable setter of part_003. -/
def CtrlErr.setBlob (e : CtrlErr) (b : Value) : CtrlErr := { e with blob := some b }

/-- Model of `.innerErr(err)` chainable setter of part_003, for native causes. -/
def CtrlErr.setInner (e : CtrlErr) (n : NativeErr) : CtrlErr := { e with inner := some n }

/-- The detail payload a validator attaches to a failed validation
(joi's `error.details`, consumed by `CtrlError.validation`). -/
structure JoiErr where
  details : Value

/-- One entry of a `ValidationResults` collection
(src/validation/validate.ts `addValidation`): the joi result
(`error?`, `value`) tagged with the data provider's name. -/
structure PR where
  provider : String
  error : Option JoiErr
  value : Value

/-- Model of `ValidationResults` (src/validation/validate.ts): an array of
per-provider results. -/
abbrev ValidationResults := List PR

/-- Model of `ValidationResults.isValid`: `!this.some(v => v.error)`. -/
def ValidationResults.isValid (rs : ValidationResults) : Bool :=
  !(List.any rs (fun v => v.error.isSome))

/-- One blob entry of a validation error
(`CtrlError.validation` in part_003): names the failing provider and
carries the validator's failure details. -/
def validationBlobEntry (v : PR) : Value :=
  vobj
    [ ("message", .str ("One or more validation errors in request " ++ v.provider))
    , ("provider", .str v.provider)
    , ("details", ((v.error.map JoiErr.details).getD .undef)) ]

/-- The blob entries of `CtrlError.validation`: one entry per result that
carries an error (`valResult.filter(v => v.error).map(...)`). -/
def validationBlobEntries (rs : ValidationResults) : List Value :=
  (List.filter (fun v => v.error.isSome) rs).map validationBlobEntry

/-- Model of `CtrlError.validation(valResult)` (part_003): code
`validation_error`, status 422, blob = one entry per failing provider.
(The source's `!valResult ? [] : ...` guard is vacuous here: a result
collection always exists at the call site.) -/
def CtrlError.validation (rs : ValidationResults) : CtrlErr :=
  { message := "Validation Error"
    code := some "validation_error"
    status := some 422
    blob := some (varr (validationBlobEntries rs)) }

/-- The mutable per-request part of `http.IncomingMessage` the validator
indexes (`req[providerName]`): a string-keyed store.  Keys absent from
the store read as `undefined`. -/
abbrev ReqFields := List (String × Value)

/-- Model of `req[k]` on the indexable request. -/
def reqGet (req : ReqFields) (k : String) : Value :=
  match req with
  | [] => .undef
  | (k2, v) :: rest => if k2 = k then v else reqGet rest k

/-- Model of `req[k] = v` on the indexable request: replaces the first binding of
`k`, or appends one. -/
def reqSet (req : ReqFields) (k : String) (v : Value) : ReqFields :=
  match req with
  | [] => [(k, v)]
  | (k2, v2) :: rest => if k2 = k then (k2, v) :: rest else (k2, v2) :: reqSet rest k v

/-- The request object: method and URL (read by `RequestContext` and the
injector) plus the indexable fields (`query`, `params`, `body`,
`headers`, ... live here, as the validator addresses them by name). -/
structure ReqObj where
  method : String := ""
  url : String := ""
  fields : ReqFields := []

/-- The outcome a validator function returns (joi's
`{error?, value}`). -/
structure VRes where
  error : Option JoiErr
  value : Value

/-- One declared validation entry (part_003 `Validation`): provider
name, optional data accessor, validator function.  An accessor reads the
request's indexable fields (all accessors in the corpus, e.g.
`req => req.query`, do). -/
structure Validation where
  providerName : String
  dataAccessor : Option (ReqFields → Value) := none
  validator : Value → VRes

/-- Model of `Validator` (part_003): the ordered list of declared validation
entries of an action. -/
abbrev Validator := List Validation

/-- The body of the `forEach` loop of `Validator.validate` (part_003) on
one entry: extract and default the raw data, run the validator, record
the tagged result, and write the value back on success. -/
def validateStep (v : Validation) (fields : ReqFields) : PR × ReqFields :=
  let raw := match v.dataAccessor with
    | some f => f fields
    | none => reqGet fields v.providerName
  let reqVal := jsOr raw (vobj [])
  let res := v.validator reqVal
  ({ provider := v.providerName, error := res.error, value := res.value },
   if res.error.isNone then reqSet fields v.providerName res.value else fields)

/-- Model of `Validator.validate(req)` (part_003): for each entry, extract the
data (`dataAccessor(req)` or `req[providerName]`, defaulting to `{}`
when falsy), run the validator, record the result, and — only when the
result carries no error — write the validator's value back to
`req[providerName]`.  Returns the results together with the mutated
request fields. -/
def Validator.validate (vs : Validator) (req : ReqObj) : ValidationResults × ReqFields :=
  go vs req.fields
where
  go : List Validation → ReqFields → ValidationResults × ReqFields
    | [], fields => ([], fields)
    | v :: rest, fields =>
      let s := validateStep v fields
      let out := go rest s.2
      (s.1 :: out.1, out.2)

/-- A chunk handed to the underlying stream's `write`: raw bytes
(a `Buffer`) or a JSON text. -/
inductive Chunk where
  | bytes (bs : List Nat)
  | text (s : String)

/-- An operation performed on the underlying `http.ServerResponse`
stream. -/
inductive ROp where
  | write (c : Chunk)
  | endStream

/-- An error reported through `handleWriteError`
(src/util/response.ts), i.e. the handler's internal failure/diagnostic
channel (`console.error` on the app server): either a structured
`CtrlError` or a native error raised by the stream. -/
inductive Report where
  | ctrl (e : CtrlErr)
  | native (msg : String)

/-- The observable state of a `ResponseHandler`
(src/util/response.ts) together with the underlying response it drives:
the `closed` flag, the count of write promises started
(`writePromises`), the response's status code and headers, the ordered
stream operations issued, and the errors reported via
`handleWriteError`. -/
structure RH where
  closed : Bool := false
  writePromises : Nat := 0
  statusCode : Nat := 200
  headers : List (String × String) := []
  ops : List ROp := []
  reports : List Report := []

/-- A fresh handler as produced by `response(res, next)`. -/
def RH.init : RH := {}

/-- Model of `res.setHeader(name, value)`: replaces an existing header of the
same name, otherwise appends. -/
def setHeader (hs : List (String × String)) (name val : String) : List (String × String) :=
  match hs with
  | [] => [(name, val)]
  | (n, v) :: rest => if n = name then (n, val) :: rest else (n, v) :: setHeader rest name val

/-- Apply all headers of a write-options record in order. -/
def applyHeaders (hs : List (String × String)) : List (String × String) → List (String × String)
  | [] => hs
  | (n, v) :: rest => applyHeaders (setHeader hs n v) rest

/-- The options record of `ResponseHandler.write`
(`IWriteOptons` in src/util/response.ts). -/
structure WriteOptions where
  data : Value
  headers : List (String × String) := []
  status : Option Nat := none

/-- The buffer check of `ResponseHandler.write`:
`data instanceof Buffer || data instanceof ArrayBuffer ||
ArrayBuffer.isView(data)`. -/
def Value.isBufferLike : Value → Bool
  | .bytes _ => true
  | _ => false

/-- The error `handleWriteError` receives when writing to a closed
handler. -/
def closedWriteErr : CtrlErr :=
  CtrlError.server (some "Cannot write to response. Stream is already closed.")

/-- Model of `ResponseHandler.writeToStream(data)` (src/util/response.ts): pushes
a write promise; `res.write` is attempted inside it, and a synchronous
throw there (e.g. `res.write(undefined)`) is caught, reported via
`handleWriteError`, and the promise still resolves. -/
def RH.writeToStream (s : RH) (c : Option Chunk) : RH :=
  match c with
  | some c =>
      { s with ops := s.ops ++ [.write c], writePromises := s.writePromises + 1 }
  | none =>
      { s with reports := s.reports ++ [.native "res.write raised on a chunk with no encoding"]
               writePromises := s.writePromises + 1 }

/-- Model of `ResponseHandler.write(options)` (src/util/response.ts).  If the
handler is closed, the attempt is reported through `handleWriteError`
and nothing else happens (the early return precedes the status/header
assignments).  Otherwise status (default 200) and headers are set, the
data is converted — buffer-likes stay raw bytes, everything else goes
through `JSON.stringify` — and the chunk is handed to `writeToStream`.
`JSON.stringify` cannot throw on our (acyclic) values, so the
surrounding catch of the source reduces to the `writeToStream`
behavior. -/
def RH.write (s : RH) (options : WriteOptions) : RH :=
  if s.closed then
    { s with reports := s.reports ++ [.ctrl closedWriteErr] }
  else
    let s := { s with statusCode := options.status.getD 200
                      headers := applyHeaders s.headers options.headers }
    match options.data with
    | .bytes bs => s.writeToStream (some (.bytes bs))
    | d => s.writeToStream ((stringify d).map Chunk.text)

/-- Model of `ResponseHandler.end()` (src/util/response.ts): marks the handler
closed and, after all started write promises settle, calls `res.end()`
on the underlying stream.  In the sequential order of one dispatch
cycle this appends the stream termination after the operations issued
so far.  There is no guard on `closed`: every call schedules its own
`res.end()`. -/
def RH.end (s : RH) : RH :=
  { s with closed := true, ops := s.ops ++ [.endStream] }

/-- Model of `ResponseHandler.json(data, status?)` (src/util/response.ts):
`write` with a `Content-Type: application/json` header, then `end()`. -/
def RH.json (s : RH) (data : Value) (status : Option Nat := none) : RH :=
  (s.write { data, headers := [("Content-Type", "application/json")], status }).end

/-- Model of `CtrlError.toObject()` (part_003), which `toJSON` delegates to: the
wire shape of a structured error.  Unset JS properties appear as
`undefined` and are therefore skipped by `JSON.stringify`; the `stack`
property (pure diagnostics text) is not modelled. -/
def CtrlErr.toObject (e : CtrlErr) : Value :=
  vobj
    [ ("message", .str e.message)
    , ("code", (e.code.map Value.str).getD .undef)
    , ("blob", e.blob.getD .undef)
    , ("status", (e.status.map (fun n => Value.num n)).getD .undef)
    , ("innerErr", (e.inner.map (fun n => vobj [("message", .str n.message)])).getD .undef) ]

/-- Model of `ResponseHandler.error(err)` (src/util/response.ts): wraps a native
error as a server error (`CtrlError.fromObject` rule), then writes it as
JSON — `JSON.stringify` serializes the error via `toJSON`/`toObject` —
with the error's status (default 500). -/
def RH.error (s : RH) (e : Sum NativeErr CtrlErr) : RH :=
  let error := match e with
    | .inr ce => ce
    | .inl ne => (CtrlError.server).setInner ne
  s.json error.toObject (some (error.status.getD 500))

/-- The byte-buffer check of `BaseController.writeResult`
(src/BaseController.ts): `data instanceof Uint8Array || data instanceof
ArrayBuffer`. -/
def Value.isUint8OrArrayBuffer : Value → Bool
  | .bytes _ => true
  | _ => false

/-- Model of `BaseController.writeResult(res, data, next)`
(src/BaseController.ts): on a fresh `ResponseHandler`, byte buffers are
written with `Content-Type: application/octet-stream` followed by
`end()`; every other value goes through `json(data)`. -/
def writeResult (data : Value) : RH :=
  if data.isUint8OrArrayBuffer then
    (RH.init.write
      { data, headers := [("Content-Type", "application/octet-stream")] }).end
  else
    RH.init.json data

/-- Skip a `//` line comment's body: the regex `\/\/.*$` (multiline)
consumes up to, but not including, the line's newline. -/
def dropLineComment : List Char → List Char
  | [] => []
  | c :: rest => if c = '\n' then c :: rest else dropLineComment rest

/-- Find the end of a `/* ... */` block comment body: the lazy regex
`\/\*[\s\S]*?\*\/` consumes up to and including the first `*/`.
`none` when the block is unterminated (then the regex does not match). -/
def findBlockEnd : List Char → Option (List Char)
  | [] => none
  | '*' :: '/' :: rest => some rest
  | _ :: rest => findBlockEnd rest

/-- One left-to-right pass of `STRIP_COMMENTS`
(`.replace(/((\/\/.*$)|(\/\*[\s\S]*?\*\/))/mg, '')` in
src/unnamed/part_001): at each position the `//` alternative is tried
before `/*`, matches are removed, and scanning resumes after the match.
The fuel argument only drives termination; each step consumes at least
one character, so fuel = input length always suffices. -/
def stripCommentsAux : Nat → List Char → List Char
  | 0, rest => rest
  | _ + 1, [] => []
  | fuel + 1, '/' :: '/' :: rest => stripCommentsAux fuel (dropLineComment rest)
  | fuel + 1, '/' :: '*' :: rest =>
      (match findBlockEnd rest with
       | some rest2 => stripCommentsAux fuel rest2
       | none => '/' :: stripCommentsAux fuel ('*' :: rest))
  | fuel + 1, c :: rest => c :: stripCommentsAux fuel rest

def stripComments (s : String) : String :=
  ⟨stripCommentsAux s.data.length s.data⟩

/-- Model of `String.prototype.indexOf` for a single character: the index of the
first occurrence, `-1` when absent. -/
def jsIndexOf (l : List Char) (c : Char) : Int :=
  match l.findIdx? (fun x => x = c) with
  | some i => (i : Int)
  | none => -1

/-- Resolve a JS `slice` index: negative indices count from the end,
results are clamped to `[0, len]`. -/
def jsClampIndex (len : Nat) (i : Int) : Nat :=
  if i < 0 then (max (i + len) 0).toNat else min i.toNat len

/-- Model of `String.prototype.slice(start, end)` on a character list. -/
def jsSlice (l : List Char) (start stop : Int) : List Char :=
  (l.take (jsClampIndex l.length stop)).drop (jsClampIndex l.length start)

/-- A separator for `ARGUMENT_NAMES = /([^\s,]+)/g`: commas and
whitespace. -/
def isArgSep (c : Char) : Bool :=
  c = ',' || c.isWhitespace

/-- The matches of `/([^\s,]+)/g`: maximal runs of non-separator
characters, in order.  The accumulator holds the current run
reversed. -/
def argumentTokensAux : List Char → List Char → List String
  | [], cur => if cur.isEmpty then [] else [String.mk cur.reverse]
  | c :: rest, cur =>
      if isArgSep c then
        if cur.isEmpty then argumentTokensAux rest []
        else String.mk cur.reverse :: argumentTokensAux rest []
      else argumentTokensAux rest (c :: cur)

def argumentTokens (l : List Char) : List String :=
  argumentTokensAux l []

/-- Model of `DependencyInjector.resolveActionParameters(method)`
(src/unnamed/part_001): strip comments from the function's source text,
slice out the text between the first `(` and the first `)`, and match
`ARGUMENT_NAMES` (an absent match yields `[]`). -/
def resolveActionParameters (src : String) : List String :=
  let fnStr := (stripComments src).data
  argumentTokens (jsSlice fnStr (jsIndexOf fnStr '(' + 1) (jsIndexOf fnStr ')'))

/-- Model of `querystring` parsing as done by `url.parse(url, true).query`,
restricted to what the corpus exercises: split on `&`, each segment at
its first `=` (no percent-decoding, no duplicate-key arrays). -/
def parseQueryString (s : String) : Value :=
  vobj (((s.splitOn "&").filter (fun seg => seg ≠ "")).map (fun seg =>
    match seg.splitOn "=" with
    | [] => (seg, Value.str "")
    | k :: rest => (k, Value.str (String.intercalate "=" rest))))

/-- Model of `url.parse(this.req.url || '', true).query`: the query-string part
after the first `?` of the URL, parsed; `{}` when there is none. -/
def parseUrlQuery (url : String) : Value :=
  match url.splitOn "?" with
  | [] => vobj []
  | [_] => vobj []
  | _ :: rest => parseQueryString (String.intercalate "?" rest)

/-- A value an injector resolves for one action parameter.  The raw
request/response/failure-sink/context/response-handler are opaque
per-cycle references; data extracted from the request is a `Value`;
a parameter with no injector resolves to `undefined`. -/
inductive ParamVal where
  | undef
  | reqRef
  | resRef
  | nextRef
  | contextRef
  | respRef
  | val (v : Value)

/-- The per-cycle state of a `DependencyInjector`
(src/unnamed/part_001): the request it extracts data from (response,
next and context are opaque references in `ParamVal`). -/
structure DI where
  req : ReqObj

/-- The injector methods of `DependencyInjector` (src/unnamed/part_001),
keyed by their prototype property names (`inject_` + parameter name):
`$req`/`$res`/`$next`/`$context`/`$resp` resolve per-cycle references;
`$query` is `req.query || <parsed URL query>` (the `_query` memo of the
source caches the parse, which is value-transparent); `$params` and
`$body` default to `{}` when falsy; `$headers` is read without a
default. -/
def injectorTable : List (String × (DI → ParamVal)) :=
  [ ("inject_$req", fun _ => .reqRef)
  , ("inject_$res", fun _ => .resRef)
  , ("inject_$query", fun di => .val (jsOr (reqGet di.req.fields "query") (parseUrlQuery di.req.url)))
  , ("inject_$params", fun di => .val (jsOr (reqGet di.req.fields "params") (vobj [])))
  , ("inject_$body", fun di => .val (jsOr (reqGet di.req.fields "body") (vobj [])))
  , ("inject_$headers", fun di => .val (reqGet di.req.fields "headers"))
  , ("inject_$next", fun _ => .nextRef)
  , ("inject_$context", fun _ => .contextRef)
  , ("inject_$resp", fun _ => .respRef) ]

/-- Model of `DependencyInjector.resolveInjector(paramName)`
(src/unnamed/part_001): look up `'inject_' + paramName` on the
injector's prototype. -/
def resolveInjector (paramName : String) : Option (DI → ParamVal) :=
  injectorTable.lookup ("inject_" ++ paramName)

/-- Model of `DependencyInjector.getParams(action)` (src/unnamed/part_001): map
each declared parameter name to its injector's value, or `undefined`
when no injector of that name exists (`i ? i.call(this) : undefined`). -/
def getParams (di : DI) (actionSource : String) : List ParamVal :=
  (resolveActionParameters actionSource).map (fun p =>
    match resolveInjector p with
    | some i => i di
    | none => .undef)

/-- Model of `R.isNil` (ramda): `null` or `undefined`. -/
def Value.isNil : Value → Bool
  | .undef => true
  | .null => true
  | _ => false

/-- Model of `R.isEmpty` (ramda) on the value kinds the corpus can hold in
`req.body`: empty string, empty array, empty object. -/
def Value.isEmptyVal : Value → Bool
  | .str s => s = ""
  | .arr .nil => true
  | .obj .fnil => true
  | _ => false

/-- Model of `RequestContext` (src/unnamed/part_000): wraps the request of one
dispatch cycle (its validator accumulator starts empty and is filled by
`beforeCall`). -/
structure RequestContext where
  req : ReqObj

/-- Model of `RequestContext.isPostOrPut` (src/unnamed/part_000):
`req.method === 'post' || req.method === 'put'` — a strict comparison
against the lowercase strings. -/
def RequestContext.isPostOrPut (ctx : RequestContext) : Bool :=
  ctx.req.method == "post" || ctx.req.method == "put"

/-- Model of `RequestContext.hasBody` (src/unnamed/part_000):
`!R.isNil(req.body) && !R.isEmpty(req.body)`. -/
def RequestContext.hasBody (ctx : RequestContext) : Bool :=
  !(reqGet ctx.req.fields "body").isNil && !(reqGet ctx.req.fields "body").isEmptyVal

/-- The possible outcomes of invoking an action function
(`actionFn.apply(this, params)` in `callAction`): a synchronous
`undefined`, a synchronous defined non-thenable value, a thenable that
settles (resolves or rejects), or a synchronous throw. -/
inductive InvokeResult where
  | retUndefined
  | retValue (v : Value)
  | retPromise (r : Except CtrlErr Value)
  | throwSync (e : CtrlErr)

/-- An action function (`ActionFn`): its `name`, its source text
(`toString()`, parsed for parameter names by the injector), and its
behavior on the injected parameters. -/
structure ActionFn where
  name : String
  source : String := ""
  run : List ParamVal → InvokeResult := fun _ => .retUndefined

/-- One prototype level of a controller class: its own function-valued
properties (`methods`), and the metadata maps attached at this level —
the `publicAction` markers of src/BaseController.ts, the
`privateAction` markers of the express variant (part_001), and the
validator metadata consumed by `getValidator`
(src/validation/validate.ts). -/
structure Proto where
  methods : List (String × ActionFn) := []
  pubMeta : List (String × Bool) := []
  privMeta : List (String × Bool) := []
  valMeta : List (String × Validator) := []

/-- A controller instance: its class name (`this.constructor.name`) and
the prototype chain starting at `this.constructor.prototype` (head) and
continuing through the base classes. -/
structure Controller where
  name : String
  protoChain : List Proto

/-- Ordinary JS property lookup `this.constructor.prototype[name]`
restricted to function-valued properties: walks the prototype chain and
returns the first match. -/
def chainMethodLookup : List Proto → String → Option ActionFn
  | [], _ => none
  | p :: rest, s =>
      match p.methods.lookup s with
      | some f => some f
      | none => chainMethodLookup rest s

/-- Modelled from the spec: the `publicAction`/`privateAction` method
markers (src/util/publicAction and src/util/privateAction are not in
the corpus) are boolean method metadata built on `methodDecorator`
(src/util/metaDecorator.ts) — "a boolean marker attached to an Action
at declaration time ... stored in metadata keyed by class+method-name".
`metaDecorator.getValue` calls `Reflect.getMetadata`, whose
reflect-metadata semantics (OrdinaryGetMetadata) inherit along the
prototype chain: the first level owning an entry for the key wins, an
absent entry reads as `undefined` (falsy). -/
def metaLookup (proj : Proto → List (String × Bool)) : List Proto → String → Option Bool
  | [], _ => none
  | p :: rest, s =>
      match (proj p).lookup s with
      | some b => some b
      | none => metaLookup proj rest s

/-- Model of `Reflect.getMetadata` chain lookup for the validator metadata of
`getValidator` (src/validation/validate.ts). -/
def valMetaLookup : List Proto → String → Option Validator
  | [], _ => none
  | p :: rest, s =>
      match (p.valMeta).lookup s with
      | some v => some v
      | none => valMetaLookup rest s

/-- Model of `getValidator(target, property)` (src/validation/validate.ts):
the validator metadata of the action, or a fresh empty `Validator`. -/
def getValidator (ctrl : Controller) (actionName : String) : Validator :=
  (valMetaLookup ctrl.protoChain actionName).getD []

/-- An `Action` (src/util/types): a method name or a direct function
reference. -/
inductive ActionRef where
  | byName (s : String)
  | byFn (f : ActionFn)

/-- The value an `Action` contributes to the `invalid_action` blob
(`action: action` in `callAction`). -/
def ActionRef.toValue : ActionRef → Value
  | .byName s => .str s
  | .byFn f => .fnRef f.name

/-- Model of `BaseController.resolveActionFn(action)` (src/BaseController.ts):
a string action is looked up as `this.constructor.prototype[action]` —
an ordinary, prototype-chain-walking property access — and kept if it
is a function; a function action is taken as-is.  The candidate is
returned only if `publicAction.getValue(this.constructor.prototype,
actionFn.name)` is truthy. -/
def resolveActionFn (ctrl : Controller) (a : ActionRef) : Option ActionFn :=
  let actionFn : Option ActionFn :=
    match a with
    | .byName s => chainMethodLookup ctrl.protoChain s
    | .byFn f => some f
  match actionFn with
  | some f =>
      if (metaLookup Proto.pubMeta ctrl.protoChain f.name).getD false then some f else none
  | none => none

/-- Model of `resolveActionFn` of the express variant (src/unnamed/part_001):
a string action is resolved via
`Object.getOwnPropertyDescriptor(this.constructor.prototype, action)` —
own properties of the first prototype level only — and the candidate is
kept unless `privateAction.getValue(this.constructor, actionFn.name)`
is truthy. -/
def resolveActionFnExpress (ctrl : Controller) (a : ActionRef) : Option ActionFn :=
  let actionFn : Option ActionFn :=
    match a with
    | .byName s =>
        (match ctrl.protoChain with
         | [] => none
         | p :: _ => p.methods.lookup s)
    | .byFn f => some f
  match actionFn with
  | some f =>
      if (metaLookup Proto.privMeta ctrl.protoChain f.name).getD false then none else some f
  | none => none

/-- Model of `BaseController.beforeCall` (src/BaseController.ts): merge the
action's declared validations into the fresh context's validator, run
it against the request, and throw `CtrlError.validation` when the
outcome is invalid.  Returns the request fields as mutated by the
validation write-back. -/
def beforeCall (ctrl : Controller) (f : ActionFn) (req : ReqObj) : Except CtrlErr ReqFields :=
  let validator := getValidator ctrl f.name
  let res := Validator.validate validator req
  if res.1.isValid then .ok res.2 else .error (CtrlError.validation res.1)

/-- An observable event of one `callAction` dispatch cycle, in order:
a call of the failure sink `next` (`none` models the no-error call —
the source passes `null`, which express treats exactly like a missing
argument), an invocation of `writeResult` with the settled action
result, and an invocation of the `afterCall` hook. -/
inductive Event where
  | next (err : Option CtrlErr)
  | write (data : Value)
  | afterCall

/-- The `invalid_action` error `callAction` builds when the action is
unresolved and `throwIfNotFound` is set. -/
def invalidActionErr (ctrl : Controller) (a : ActionRef) : CtrlErr :=
  ((CtrlError.server (some "Could not find the desired action in the current controller")).setCode
      "invalid_action").setBlob
    (vobj [("controller", .str ctrl.name), ("action", a.toValue)])

/-- The first stage of `callAction`'s promise chain
(src/BaseController.ts, lines 88-93): invoke the action; a defined
result is resolved and handed to `writeResult`; a rejection or a
synchronous throw inside the `then` callback leaves the stage
rejected.  Result: the write events and the rejection, if any. -/
def innerStep : InvokeResult → List Event × Option CtrlErr
  | .throwSync e => ([], some e)
  | .retUndefined => ([], none)
  | .retValue v => ([.write v], none)
  | .retPromise (.ok v) => ([.write v], none)
  | .retPromise (.error e) => ([], some e)

/-- Model of `BaseController.callAction(action, req, res, next, throwIfNotFound)`
(src/BaseController.ts), flattened to the event order its promise chain
produces.  Unresolved action: one `next` call (`null`, or the
`invalid_action` error under `throwIfNotFound`).  A synchronous throw of
`beforeCall` (a validation failure) is caught by the surrounding `try`
and routed to `next`; the chain never starts, so no `afterCall` runs.
Otherwise the chain runs: action invocation and result write
(`innerStep`), then `.catch(err => next(err))`, then
`.then(() => this.afterCall(...))`, then a final
`.catch(err => next(err))`.  The injected parameters are computed from
the request as mutated by validation (`getParams` runs after
`beforeCall` on the shared request object); `afterOutcome` is the
behavior of the (overridable) `afterCall` hook, a no-op in
`BaseController` itself. -/
def callAction (ctrl : Controller) (a : ActionRef) (req : ReqObj) (throwIfNotFound : Bool)
    (afterOutcome : Except CtrlErr Unit) : List Event :=
  match resolveActionFn ctrl a with
  | none => [.next (if throwIfNotFound then some (invalidActionErr ctrl a) else none)]
  | some f =>
      match beforeCall ctrl f req with
      | .error e => [.next (some e)]
      | .ok fields2 =>
          let di : DI := { req := { req with fields := fields2 } }
          let params := getParams di f.source
          let step := innerStep (f.run params)
          step.1
            ++ (match step.2 with
                | some e => [.next (some e)]
                | none => [])
            ++ [.afterCall]
            ++ (match afterOutcome with
                | .error e => [.next (some e)]
                | .ok _ => [])

/-- Fixture: a public base-class action (`greet`), for exercising
resolution of inherited methods. -/
def greetFn : ActionFn :=
  { name := "greet", source := "greet($req) { return null; }"
    run := fun _ => .retValue (.str "hi") }

/-- Fixture: the base-class prototype owning `greet`, marked public. -/
def baseProto : Proto :=
  { methods := [("greet", greetFn)], pubMeta := [("greet", true)] }

/-- Fixture: a derived-class prototype owning no methods. -/
def derivedProto : Proto := {}

/-- Fixture: a controller whose own prototype owns nothing; `greet` is
reachable only through the base class. -/
def sampleCtrl : Controller :=
  { name := "DerivedController", protoChain := [derivedProto, baseProto] }

/-- Fixture: the rejection value of a failing action. -/
def rejErr : CtrlErr := CtrlError.server (some "boom")

/-- Fixture: a public action whose awaitable result rejects. -/
def rejectingFn : ActionFn :=
  { name := "doFail", source := "doFail() { }"
    run := fun _ => .retPromise (.error rejErr) }

/-- Fixture: a controller owning the rejecting action, marked public,
with no declared validations. -/
def c2Ctrl : Controller :=
  { name := "FailController"
    protoChain := [{ methods := [("doFail", rejectingFn)], pubMeta := [("doFail", true)] }] }

/-- Fixture: a plain GET request. -/
def plainReq : ReqObj :=
  { method := "get", url := "/items", fields := [("query", vobj [("a", .str "1")])] }

/-- Fixture: a validation failure detail. -/
def failDetail : JoiErr := { details := varr [.str "a is required"] }

/-- Fixture: a validation entry on `query` that always fails. -/
def alwaysFailEntry : Validation :=
  { providerName := "query", validator := fun v => { error := some failDetail, value := v } }

/-- Fixture: a public action `list` carrying the always-failing
validation. -/
def listFn : ActionFn :=
  { name := "list", source := "list($query) { return null; }"
    run := fun _ => .retValue .null }

/-- Fixture: a controller whose `list` action declares the failing
validation. -/
def c6Ctrl : Controller :=
  { name := "ListController"
    protoChain :=
      [{ methods := [("list", listFn)], pubMeta := [("list", true)]
         valMeta := [("list", [alwaysFailEntry])] }] }

/-- Fixture: a validation entry on `query` that accepts exactly
`{a: "1"}` and coerces it to `{a: 1}` (a string→number coercion as in
the round-trip scenario), failing on anything else. -/
def coerceEntry : Validation :=
  { providerName := "query"
    validator := fun v =>
      match v with
      | .obj (.fcons "a" (.str "1") .fnil) => { error := none, value := vobj [("a", .num 1)] }
      | w => { error := some failDetail, value := w } }

/-- Fixture: a request whose query is the raw `{a: "1"}`. -/
def c7Req : ReqObj :=
  { method := "get", url := "/items", fields := [("query", vobj [("a", .str "1")])] }

/-- Fixture: the source text of an action declared `(a, $req, $query)`
(parameter `a` has no injector). -/
def c9Src : String := "function (a, $req, $query) { return null; }"

/-- Fixture: an injector cycle whose request carries a truthy parsed
query. -/
def c9DI : DI :=
  { req := { method := "get", url := "/items?b=2", fields := [("query", vobj [("a", .str "1")])] } }

theorem reqGet_reqSet_self (fields : ReqFields) (k : String) (v : Value) :
    reqGet (reqSet fields k v) k = v := by
  induction fields with
  | nil => simp [reqGet, reqSet]
  | cons hd tl ih =>
      obtain ⟨k2, v2⟩ := hd
      by_cases h : k2 = k
      · simp [reqGet, reqSet, h]
      · simp [reqGet, reqSet, h, ih]

theorem reqGet_reqSet_ne (fields : ReqFields) (k p : String) (v : Value) (h : p ≠ k) :
    reqGet (reqSet fields k v) p = reqGet fields p := by
  induction fields with
  | nil => simp [reqGet, reqSet, Ne.symm h]
  | cons hd tl ih =>
      obtain ⟨k2, v2⟩ := hd
      by_cases h2 : k2 = k
      · subst h2
        simp [reqGet, reqSet, Ne.symm h]
      · simp [reqGet, reqSet, h2, ih]

/-- Lowercase-only matching: `RequestContext.isPostOrPut` holds exactly for the lowercase method
strings; the standard uppercase forms read as `false`. -/
theorem isPostOrPut_lowercase_only :
    (∀ ctx : RequestContext,
        ctx.isPostOrPut = true ↔ (ctx.req.method = "post" ∨ ctx.req.method = "put")) ∧
    RequestContext.isPostOrPut { req := { method := "POST" } } = false ∧
    RequestContext.isPostOrPut { req := { method := "PUT" } } = false := by
  refine ⟨fun ctx => ?_, by decide, by decide⟩
  simp [RequestContext.isPostOrPut]

/-- Counterexample to idempotent `end()`: a second `end()` issues a
second `res.end()` on the underlying stream, so its effect differs from
a single call. -/
theorem responseHandler_end_twice_cex :
    (RH.init.end.end).ops = [.endStream, .endStream] ∧
    (RH.init.end).ops = [.endStream] ∧
    RH.init.end.end ≠ RH.init.end := by
  refine ⟨rfl, rfl, fun h => ?_⟩
  have h2 := congrArg RH.ops h
  simp [RH.end, RH.init] at h2

/-- Amended idempotence: a second `end()` throws nothing and issues no
further data writes — the handler state is unchanged except that the
underlying stream's `end()` is invoked once more. -/
theorem responseHandler_end_twice_effect (s : RH) :
    (s.end.end).ops = s.ops ++ [.endStream, .endStream] ∧
    (s.end.end).closed = true ∧
    (s.end.end).writePromises = s.writePromises ∧
    (s.end.end).statusCode = s.statusCode ∧
    (s.end.end).headers = s.headers ∧
    (s.end.end).reports = s.reports := by
  simp [RH.end]

/-- A `write()` on a closed handler performs no stream operation, leaves
status, headers and pending writes untouched, and reports exactly one
`Cannot write` server error through `handleWriteError` (the handler's
failure/diagnostic channel); the model is a total function, so the call
cannot throw. -/
theorem write_after_end_rejected (s : RH) (opts : WriteOptions) (h : s.closed = true) :
    (s.write opts).ops = s.ops ∧
    (s.write opts).statusCode = s.statusCode ∧
    (s.write opts).headers = s.headers ∧
    (s.write opts).writePromises = s.writePromises ∧
    (s.write opts).closed = s.closed ∧
    (s.write opts).reports = s.reports ++ [.ctrl closedWriteErr] ∧
    closedWriteErr.message = "Cannot write to response. Stream is already closed." ∧
    closedWriteErr.code = some "server_error" ∧
    closedWriteErr.status = some 500 := by
  simp [RH.write, h, closedWriteErr, CtrlError.server]

theorem write_after_end_rejected_witness :
    (RH.init.end).closed = true ∧
    ((RH.init.end).write { data := .str "late" }).ops = (RH.init.end).ops ∧
    ((RH.init.end).write { data := .str "late" }).reports =
      (RH.init.end).reports ++ [.ctrl closedWriteErr] := by
  have h := write_after_end_rejected (RH.init.end) { data := .str "late" } rfl
  exact ⟨rfl, h.1, h.2.2.2.2.2.1⟩

/-- Content types of `writeResult`: byte buffers are written raw with
`Content-Type: application/octet-stream`; every other JSON-encodable
value is written as its JSON text with
`Content-Type: application/json`; both with status 200 and a following
`end()`, and no error report. -/
theorem writeResult_content_types :
    (∀ bs : List Nat,
        (writeResult (.bytes bs)).ops = [.write (.bytes bs), .endStream] ∧
        (writeResult (.bytes bs)).statusCode = 200 ∧
        (writeResult (.bytes bs)).headers = [("Content-Type", "application/octet-stream")] ∧
        (writeResult (.bytes bs)).reports = []) ∧
    (∀ (v : Value) (txt : String),
        v.isUint8OrArrayBuffer = false → stringify v = some txt →
        (writeResult v).ops = [.write (.text txt), .endStream] ∧
        (writeResult v).statusCode = 200 ∧
        (writeResult v).headers = [("Content-Type", "application/json")] ∧
        (writeResult v).reports = []) := by
  constructor
  · intro bs
    exact ⟨rfl, rfl, rfl, rfl⟩
  · intro v txt h1 h2
    cases v <;>
      simp_all [writeResult, RH.json, RH.write, RH.init, RH.writeToStream, RH.end,
        applyHeaders, setHeader, Value.isUint8OrArrayBuffer]

theorem writeResult_content_types_witness :
    Value.isUint8OrArrayBuffer (vobj [("x", .num 1)]) = false ∧
    stringify (vobj [("x", .num 1)]) = some "\x7b\"x\":1\x7d" ∧
    (writeResult (vobj [("x", .num 1)])).ops = [.write (.text "\x7b\"x\":1\x7d"), .endStream] ∧
    (writeResult (vobj [("x", .num 1)])).statusCode = 200 ∧
    (writeResult (vobj [("x", .num 1)])).headers = [("Content-Type", "application/json")] := by
  have h := writeResult_content_types.2 (vobj [("x", .num 1)]) "\x7b\"x\":1\x7d" (by decide) (by decide)
  exact ⟨by decide, by decide, h.1, h.2.1, h.2.2.1⟩

/-- Unresolved action: with `throwIfNotFound` unset, `next` is called
with the no-error value; with it set, `next` receives the structured
`invalid_action` error (status 500) whose blob names the controller and
the requested action. -/
theorem callAction_not_found_behavior (ctrl : Controller) (a : ActionRef) (req : ReqObj)
    (after : Except CtrlErr Unit) (h : resolveActionFn ctrl a = none) :
    callAction ctrl a req false after = [.next none] ∧
    callAction ctrl a req true after = [.next (some (invalidActionErr ctrl a))] ∧
    (invalidActionErr ctrl a).code = some "invalid_action" ∧
    (invalidActionErr ctrl a).status = some 500 ∧
    (invalidActionErr ctrl a).message =
      "Could not find the desired action in the current controller" ∧
    (invalidActionErr ctrl a).blob =
      some (vobj [("controller", .str ctrl.name), ("action", a.toValue)]) := by
  simp [callAction, h, invalidActionErr, CtrlError.server, CtrlErr.setCode, CtrlErr.setStatus,
    CtrlErr.setBlob]

theorem callAction_not_found_behavior_witness :
    resolveActionFn c2Ctrl (.byName "nope") = none ∧
    callAction c2Ctrl (.byName "nope") plainReq false (.ok ()) = [.next none] := by
  have h := callAction_not_found_behavior c2Ctrl (.byName "nope") plainReq (.ok ()) rfl
  exact ⟨rfl, h.1⟩

/-- Counterexample to own-prototype-only resolution: `greet` is not an
own method of the controller's prototype — it lives only on the base
class — yet `resolveActionFn` of src/BaseController.ts resolves it,
because `this.constructor.prototype[action]` walks the prototype chain
and the public marker is inherited by the metadata lookup. -/
theorem resolveActionFn_inherited_public_cex :
    derivedProto.methods.lookup "greet" = none ∧
    sampleCtrl.protoChain.head? = some derivedProto ∧
    resolveActionFn sampleCtrl (.byName "greet") = some greetFn := by
  exact ⟨rfl, rfl, rfl⟩

/-- Amended resolution rule: in src/BaseController.ts a string action
resolves through ordinary prototype-chain lookup — any (possibly
inherited) function of that name marked public resolves; only the
express variant of part_001 restricts name resolution to own properties
of the controller's prototype, returning `undefined` otherwise. -/
theorem resolveActionFn_resolution_rule :
    (∀ (ctrl : Controller) (s : String) (f : ActionFn),
        chainMethodLookup ctrl.protoChain s = some f →
        metaLookup Proto.pubMeta ctrl.protoChain f.name = some true →
        resolveActionFn ctrl (.byName s) = some f) ∧
    (∀ (ctrl : Controller) (p : Proto) (rest : List Proto) (s : String),
        ctrl.protoChain = p :: rest →
        p.methods.lookup s = none →
        resolveActionFnExpress ctrl (.byName s) = none) := by
  constructor
  · intro ctrl s f h1 h2
    simp [resolveActionFn, h1, h2]
  · intro ctrl p rest s h1 h2
    simp [resolveActionFnExpress, h1, h2]

theorem resolveActionFn_resolution_rule_witness :
    chainMethodLookup sampleCtrl.protoChain "greet" = some greetFn ∧
    metaLookup Proto.pubMeta sampleCtrl.protoChain "greet" = some true ∧
    resolveActionFn sampleCtrl (.byName "greet") = some greetFn := by
  exact ⟨rfl, rfl, resolveActionFn_resolution_rule.1 sampleCtrl "greet" greetFn rfl rfl⟩

/-- Counterexample to "afterCall is skipped when the invocation
rejects": for a rejecting action, the rejection is routed to `next` by
the chain's first `.catch`, which settles the chain — the following
`.then(() => this.afterCall(...))` then runs the after-hook. -/
theorem callAction_rejection_cex :
    callAction c2Ctrl (.byName "doFail") plainReq false (.ok ()) =
      [.next (some rejErr), .afterCall] ∧
    Event.afterCall ∈ callAction c2Ctrl (.byName "doFail") plainReq false (.ok ()) := by
  constructor
  · rfl
  · have h1 : callAction c2Ctrl (.byName "doFail") plainReq false (.ok ()) =
        [.next (some rejErr), .afterCall] := rfl
    rw [h1]
    simp

/-- Amended after-hook rule: once the action is resolved and
`beforeCall` returns normally, `afterCall` runs in every dispatch cycle
— including one whose invocation result rejects, where the rejection is
first routed to `next` and `afterCall` still runs afterwards. -/
theorem callAction_afterCall_always_runs (ctrl : Controller) (a : ActionRef) (req : ReqObj)
    (tif : Bool) (after : Except CtrlErr Unit) (f : ActionFn) (fields2 : ReqFields)
    (hres : resolveActionFn ctrl a = some f)
    (hbefore : beforeCall ctrl f req = .ok fields2) :
    Event.afterCall ∈ callAction ctrl a req tif after ∧
    (∀ e : CtrlErr,
        f.run (getParams { req := { req with fields := fields2 } } f.source) =
          .retPromise (.error e) →
        callAction ctrl a req tif after =
          [.next (some e), .afterCall]
            ++ (match after with
                | .error e2 => [.next (some e2)]
                | .ok _ => [])) := by
  constructor
  · simp [callAction, hres, hbefore, List.mem_append]
  · intro e he
    simp [callAction, hres, hbefore, he, innerStep]

theorem callAction_afterCall_always_runs_witness :
    resolveActionFn c2Ctrl (.byName "doFail") = some rejectingFn ∧
    beforeCall c2Ctrl rejectingFn plainReq = .ok plainReq.fields ∧
    Event.afterCall ∈ callAction c2Ctrl (.byName "doFail") plainReq false (.ok ()) := by
  exact ⟨rfl, rfl,
    (callAction_afterCall_always_runs c2Ctrl (.byName "doFail") plainReq false (.ok ())
      rejectingFn plainReq.fields rfl rfl).1⟩

/-- Positional injection: `getParams` maps the declared parameter list positionally; the
result has one value per declared parameter, a parameter whose name has
no injector resolves to `undefined`, and a parameter with an injector
resolves to that injector's value for the cycle. -/
theorem getParams_order_and_unknown (di : DI) (src : String) :
    (getParams di src).length = (resolveActionParameters src).length ∧
    ∀ (i : Nat) (h1 : i < (resolveActionParameters src).length)
      (h2 : i < (getParams di src).length),
      (resolveInjector ((resolveActionParameters src).get ⟨i, h1⟩) = none →
        (getParams di src).get ⟨i, h2⟩ = .undef) ∧
      (∀ inj, resolveInjector ((resolveActionParameters src).get ⟨i, h1⟩) = some inj →
        (getParams di src).get ⟨i, h2⟩ = inj di) := by
  refine ⟨by simp [getParams], fun i h1 h2 => ⟨fun h => ?_, fun inj h => ?_⟩⟩
  · simp only [List.get_eq_getElem] at h
    simp [getParams, h]
  · simp only [List.get_eq_getElem] at h
    simp [getParams, h]

theorem getParams_order_and_unknown_witness :
    resolveActionParameters c9Src = ["a", "$req", "$query"] ∧
    resolveInjector "a" = none ∧
    getParams c9DI c9Src = [.undef, .reqRef, .val (vobj [("a", .str "1")])] ∧
    (getParams c9DI c9Src).get ⟨0, by decide⟩ = .undef := by
  refine ⟨rfl, rfl, rfl, ?_⟩
  exact ((getParams_order_and_unknown c9DI c9Src).2 0 (by decide) (by decide)).1 rfl

/-- When the merged validations of the action produce an invalid
outcome, dispatch routes a `validation_error` (status 422) to `next`;
its blob holds exactly one entry per failing provider — each naming the
provider and carrying the validator's failure details — and no entry
for a provider that passed. -/
theorem callAction_validation_error_payload (ctrl : Controller) (a : ActionRef) (req : ReqObj)
    (tif : Bool) (after : Except CtrlErr Unit) (f : ActionFn)
    (hres : resolveActionFn ctrl a = some f) :
    ∀ rs : ValidationResults,
      rs = (Validator.validate (getValidator ctrl f.name) req).1 →
      rs.isValid = false →
      (rs.map PR.provider).Nodup →
      callAction ctrl a req tif after = [.next (some (CtrlError.validation rs))] ∧
      (CtrlError.validation rs).code = some "validation_error" ∧
      (CtrlError.validation rs).status = some 422 ∧
      (CtrlError.validation rs).blob = some (varr (validationBlobEntries rs)) ∧
      (validationBlobEntries rs).length = (rs.filter (fun v => v.error.isSome)).length ∧
      (∀ v ∈ rs, v.error.isSome → validationBlobEntry v ∈ validationBlobEntries rs) ∧
      (∀ v ∈ rs, ∀ d : JoiErr, v.error = some d →
          validationBlobEntry v =
            vobj
              [ ("message", .str ("One or more validation errors in request " ++ v.provider))
              , ("provider", .str v.provider)
              , ("details", d.details) ]) ∧
      (∀ v ∈ rs, v.error = none →
          v.provider ∉ (rs.filter (fun w => w.error.isSome)).map PR.provider) := by
  intro rs hrs hinv hnodup
  refine ⟨?_, rfl, rfl, rfl, by simp [validationBlobEntries], ?_, ?_, ?_⟩
  · subst hrs
    simp [callAction, hres, beforeCall, hinv]
  · intro v hv he
    simp only [validationBlobEntries, List.mem_map, List.mem_filter]
    exact ⟨v, ⟨hv, he⟩, rfl⟩
  · intro v hv d hd
    simp [validationBlobEntry, hd]
  · intro v hv hnone hmem
    simp only [List.mem_map, List.mem_filter] at hmem
    obtain ⟨w, ⟨hw, hwerr⟩, hp⟩ := hmem
    have hwv : w = v := List.inj_on_of_nodup_map hnodup hw hv hp
    rw [hwv] at hwerr
    simp [hnone] at hwerr

theorem callAction_validation_error_payload_witness :
    resolveActionFn c6Ctrl (.byName "list") = some listFn ∧
    ((Validator.validate (getValidator c6Ctrl listFn.name) plainReq).1).isValid = false ∧
    ((((Validator.validate (getValidator c6Ctrl listFn.name) plainReq).1).map PR.provider).Nodup) ∧
    callAction c6Ctrl (.byName "list") plainReq false (.ok ()) =
      [.next (some (CtrlError.validation
        (Validator.validate (getValidator c6Ctrl listFn.name) plainReq).1))] := by
  refine ⟨rfl, rfl, by decide, ?_⟩
  exact (callAction_validation_error_payload c6Ctrl (.byName "list") plainReq false (.ok ())
    listFn rfl _ rfl rfl (by decide)).1

theorem validateStep_spec (v : Validation) (fields : ReqFields) :
    (validateStep v fields).1.provider = v.providerName ∧
    ((validateStep v fields).1.error = none →
      (validateStep v fields).2 = reqSet fields v.providerName (validateStep v fields).1.value) ∧
    ((validateStep v fields).1.error ≠ none → (validateStep v fields).2 = fields) := by
  unfold validateStep
  cases he : (v.validator (jsOr (match v.dataAccessor with
      | some f => f fields
      | none => reqGet fields v.providerName) (vobj []))).error <;> simp [he]

theorem validate_go_length (vs : List Validation) :
    ∀ fields : ReqFields, (Validator.validate.go vs fields).1.length = vs.length := by
  induction vs with
  | nil => intro fields; rfl
  | cons v rest ih =>
      intro fields
      show ((validateStep v fields).1 ::
        (Validator.validate.go rest (validateStep v fields).2).1).length = rest.length + 1
      simp [ih]

theorem validate_go_untouched (vs : List Validation) :
    ∀ (fields : ReqFields) (p : String), (∀ v ∈ vs, v.providerName ≠ p) →
      reqGet (Validator.validate.go vs fields).2 p = reqGet fields p := by
  induction vs with
  | nil => intro fields p _; rfl
  | cons v rest ih =>
      intro fields p h
      have hv : v.providerName ≠ p := h v (List.mem_cons_self v rest)
      have hrest : ∀ w ∈ rest, w.providerName ≠ p := fun w hw => h w (List.mem_cons_of_mem v hw)
      show reqGet (Validator.validate.go rest (validateStep v fields).2).2 p = reqGet fields p
      rw [ih _ p hrest]
      by_cases he : (validateStep v fields).1.error = none
      · rw [(validateStep_spec v fields).2.1 he]
        exact reqGet_reqSet_ne fields v.providerName p _ (Ne.symm hv)
      · rw [(validateStep_spec v fields).2.2 he]

theorem validate_go_spec (vs : List Validation) :
    ∀ (fields : ReqFields),
      (vs.map Validation.providerName).Nodup →
      ∀ (i : Nat) (hv : i < vs.length) (hr : i < (Validator.validate.go vs fields).1.length),
        ((Validator.validate.go vs fields).1.get ⟨i, hr⟩).provider
            = (vs.get ⟨i, hv⟩).providerName ∧
        (((Validator.validate.go vs fields).1.get ⟨i, hr⟩).error = none →
          reqGet (Validator.validate.go vs fields).2 ((vs.get ⟨i, hv⟩).providerName)
            = ((Validator.validate.go vs fields).1.get ⟨i, hr⟩).value) ∧
        (((Validator.validate.go vs fields).1.get ⟨i, hr⟩).error ≠ none →
          reqGet (Validator.validate.go vs fields).2 ((vs.get ⟨i, hv⟩).providerName)
            = reqGet fields ((vs.get ⟨i, hv⟩).providerName)) := by
  induction vs with
  | nil => intro fields _ i hv hr; exact absurd hv (by simp)
  | cons v rest ih =>
      intro fields hnodup i hv hr
      have hnodup2 : (Validation.providerName v :: rest.map Validation.providerName).Nodup := by
        simpa using hnodup
      obtain ⟨hnotmem, hnd2⟩ := List.nodup_cons.mp hnodup2
      have hne : ∀ w ∈ rest, w.providerName ≠ v.providerName := by
        intro w hw heq
        exact hnotmem (heq ▸ List.mem_map_of_mem Validation.providerName hw)
      cases i with
      | zero =>
          refine ⟨(validateStep_spec v fields).1, fun he => ?_, fun he => ?_⟩
          · show reqGet (Validator.validate.go rest (validateStep v fields).2).2 v.providerName
              = (validateStep v fields).1.value
            rw [validate_go_untouched rest _ _ hne]
            rw [(validateStep_spec v fields).2.1 he]
            exact reqGet_reqSet_self fields v.providerName _
          · show reqGet (Validator.validate.go rest (validateStep v fields).2).2 v.providerName
              = reqGet fields v.providerName
            rw [validate_go_untouched rest _ _ hne]
            rw [(validateStep_spec v fields).2.2 he]
      | succ j =>
          have hv2 : j < rest.length := by
            simpa using hv
          have hr2 : j < (Validator.validate.go rest (validateStep v fields).2).1.length := by
            rw [validate_go_length]
            exact hv2
          have ihs := ih (validateStep v fields).2 hnd2 j hv2 hr2
          have hmem : rest.get ⟨j, hv2⟩ ∈ rest := List.get_mem rest j hv2
          have hnej : (rest.get ⟨j, hv2⟩).providerName ≠ v.providerName :=
            hne _ hmem
          refine ⟨ihs.1, fun he => ihs.2.1 he, fun he => ?_⟩
          have base := ihs.2.2 he
          show reqGet (Validator.validate.go rest (validateStep v fields).2).2
              ((rest.get ⟨j, hv2⟩).providerName)
            = reqGet fields ((rest.get ⟨j, hv2⟩).providerName)
          rw [base]
          by_cases he2 : (validateStep v fields).1.error = none
          · rw [(validateStep_spec v fields).2.1 he2]
            exact reqGet_reqSet_ne fields v.providerName _ _ hnej
          · rw [(validateStep_spec v fields).2.2 he2]

/-- Write-back round trip: `Validator.validate` records one result per declared entry, in
order; for an entry whose validation carries no error, the request
field at its provider key holds the validator's (normalized) value
afterwards; for an entry whose validation failed, the field is
unchanged from the original request. -/
theorem validate_writeback_roundtrip (vs : Validator) (req : ReqObj)
    (hnodup : (vs.map Validation.providerName).Nodup) :
    (Validator.validate vs req).1.length = vs.length ∧
    ∀ (i : Nat) (hv : i < vs.length) (hr : i < (Validator.validate vs req).1.length),
      ((Validator.validate vs req).1.get ⟨i, hr⟩).provider = (vs.get ⟨i, hv⟩).providerName ∧
      (((Validator.validate vs req).1.get ⟨i, hr⟩).error = none →
        reqGet (Validator.validate vs req).2 ((vs.get ⟨i, hv⟩).providerName)
          = ((Validator.validate vs req).1.get ⟨i, hr⟩).value) ∧
      (((Validator.validate vs req).1.get ⟨i, hr⟩).error ≠ none →
        reqGet (Validator.validate vs req).2 ((vs.get ⟨i, hv⟩).providerName)
          = reqGet req.fields ((vs.get ⟨i, hv⟩).providerName)) := by
  exact ⟨validate_go_length vs req.fields, validate_go_spec vs req.fields hnodup⟩

theorem validate_writeback_roundtrip_witness :
    (([coerceEntry].map Validation.providerName).Nodup) ∧
    (Validator.validate [coerceEntry] c7Req).2 = [("query", vobj [("a", .num 1)])] ∧
    reqGet (Validator.validate [coerceEntry] c7Req).2 "query" = vobj [("a", .num 1)] := by
  have h := ((validate_writeback_roundtrip [coerceEntry] c7Req (by simp)).2 0
    (by decide) (by decide)).2.1 rfl
  exact ⟨by simp, rfl, h⟩
